import Mathlib

/-!
Shallow embedding of the asteroid-dashboard pipeline (`src/app2.py`):
a static CSV loader with numeric coercion, a live NASA-feed flattener,
row-wise concatenation of the two tables, a tri-state hazard filter,
a CSV export, and a histogram view.

Tables are modelled as a list of column names plus rows of cell values;
a cell is a string, a number (rationals standing for Python floats),
a boolean, or a missing value (pandas NaN / NA).
-/

/-- A single cell of a dataframe: string, number, boolean, or missing (NaN). -/
inductive Value where
  | str (s : String)
  | num (q : ℚ)
  | bool (b : Bool)
  | na
deriving DecidableEq, Repr

/-- A dataframe: named columns and rows of cells.  A well-formed row has
one cell per column. -/
@[ext]
structure Table where
  cols : List String
  rows : List (List Value)
deriving DecidableEq, Repr

/-- Cell lookup by column name: the cell at the first column named `c`,
missing (`Value.na`) when the column or the cell is absent. -/
def valueAt (cols : List String) (row : List Value) (c : String) : Value :=
  match cols.findIdx? (fun x => x == c) with
  | some i => row.getD i Value.na
  | none => Value.na

/-- Cell lookup in a table's row. -/
def Table.getCell (t : Table) (row : List Value) (c : String) : Value :=
  valueAt t.cols row c

/-- Python `==` semantics on cells, as pandas applies it elementwise:
booleans compare equal to the numbers 1/0 (`True == 1`), `NaN` compares
unequal to everything (including itself), and values of unrelated types
compare unequal. -/
def pyEq : Value → Value → Bool
  | Value.bool a, Value.bool b => a == b
  | Value.bool a, Value.num q => (if a then (1 : ℚ) else 0) == q
  | Value.num q, Value.bool a => q == (if a then (1 : ℚ) else 0)
  | Value.num a, Value.num b => a == b
  | Value.str a, Value.str b => a == b
  | _, _ => false

/-- The hazard-flag column name used by the filter. -/
def hazCol : String := "is_potentially_hazardous_asteroid"

/-- The sidebar tri-state filter of `app2.py` (lines 58-62):
`"Yes"` keeps rows where the hazard cell `== True`, `"No"` keeps rows
where it `== False`, any other selection (`"All"`) leaves the table as is. -/
def hazard_filter (sel : String) (t : Table) : Table :=
  if sel = "Yes" then
    { t with rows := t.rows.filter (fun r => pyEq (t.getCell r hazCol) (Value.bool true)) }
  else if sel = "No" then
    { t with rows := t.rows.filter (fun r => pyEq (t.getCell r hazCol) (Value.bool false)) }
  else t

/-- Reindex a row from a source column list onto a target column list,
as `pd.concat` aligns columns: a cell is looked up by name in the source,
a column the source lacks becomes missing. -/
def reindexRow (srcCols : List String) (row : List Value) (cols : List String) : List Value :=
  cols.map (fun c => valueAt srcCols row c)

/-- `pd.concat([a, b], ignore_index=True)` (line 54): outer union of the
column lists (first table's columns, then the second's new ones), every
row of both tables kept, reindexed onto the union. -/
def concatTables (a b : Table) : Table :=
  let cols := a.cols ++ b.cols.filter (fun c => !(a.cols.contains c))
  { cols := cols
    rows := a.rows.map (fun r => reindexRow a.cols r cols)
        ++ b.rows.map (fun r => reindexRow b.cols r cols) }

/-- Value of a digit string, most significant first. -/
def natOfDigits (cs : List Char) : Nat :=
  cs.foldl (fun n c => 10 * n + (c.toNat - 48)) 0

/-- Parse an unsigned decimal numeral, with an optional fractional part. -/
def parseUnsigned (cs : List Char) : Option ℚ :=
  match cs.splitOn '.' with
  | [intp] =>
    if intp ≠ [] ∧ intp.all Char.isDigit then some (natOfDigits intp) else none
  | [intp, frac] =>
    if (intp ++ frac) ≠ [] ∧ (intp ++ frac).all Char.isDigit then
      some ((natOfDigits intp : ℚ) + (natOfDigits frac : ℚ) / (10 : ℚ) ^ frac.length)
    else none
  | _ => none

/-- Numeric parsing of a text cell: optional sign, decimal digits with an
optional fractional part.  Stands for both `pd.to_numeric`'s parser and
Python `float()`; a string it rejects is a malformed numeric cell. -/
def parseNum? (s : String) : Option ℚ :=
  match s.toList with
  | '-' :: rest => (parseUnsigned rest).map (fun q => -q)
  | '+' :: rest => parseUnsigned rest
  | cs => parseUnsigned cs

/-- `pd.to_numeric(cell, errors="coerce")` on one cell: numbers pass
through, booleans become 1/0, text parses or becomes missing, missing
stays missing. -/
def toNumericCoerce (v : Value) : Value :=
  match v with
  | Value.str s => match parseNum? s with
    | some q => Value.num q
    | none => Value.na
  | Value.num q => Value.num q
  | Value.bool b => Value.num (if b then 1 else 0)
  | Value.na => Value.na

/-- Overwrite the cell of column `c` in a row with `f` of its old value
(no-op when the column is absent), as a pandas column assignment does
row-wise. -/
def setCell (cols : List String) (row : List Value) (c : String) (f : Value → Value) : List Value :=
  match cols.findIdx? (fun x => x == c) with
  | some i => row.set i (f (row.getD i Value.na))
  | none => row

/-- `df[c] = pd.to_numeric(df[c], errors="coerce")` over a whole table. -/
def toNumericCol (t : Table) (c : String) : Table :=
  { t with rows := t.rows.map (fun r => setCell t.cols r c toNumericCoerce) }

/-- The four columns `load_static_data` coerces (lines 15-21). -/
def numericCols : List String :=
  ["relative_velocity_kmph", "miss_distance_km",
   "estimated_diameter_min_km", "estimated_diameter_max_km"]

/-- `load_static_data` (lines 15-21): read the static CSV (here: the
already-parsed table `raw`) and coerce the four numeric columns. -/
def load_static_data (raw : Table) : Table :=
  toNumericCol (toNumericCol (toNumericCol (toNumericCol raw
    "relative_velocity_kmph") "miss_distance_km")
    "estimated_diameter_min_km") "estimated_diameter_max_km"

/-- One entry of a feed object's `close_approach_data` list; velocity and
miss distance arrive as JSON strings, as the upstream feed sends them. -/
structure CloseApproach where
  close_approach_date : String
  relative_velocity_kmph : String
  miss_distance_km : String
  orbiting_body : String
deriving DecidableEq, Repr, Inhabited

/-- One near-Earth object of the feed response, with the fields
`fetch_nasa_data` reads. -/
structure NeoObj where
  id : String
  name : String
  absolute_magnitude_h : ℚ
  estimated_diameter_min : ℚ
  estimated_diameter_max : ℚ
  is_potentially_hazardous_asteroid : Bool
  close_approach_data : List CloseApproach
deriving DecidableEq, Repr

/-- The flat record `fetch_nasa_data` appends to `neos` for one object. -/
structure NeoRecord where
  id : String
  name : String
  absolute_magnitude_h : ℚ
  estimated_diameter_min_km : ℚ
  estimated_diameter_max_km : ℚ
  is_potentially_hazardous_asteroid : Bool
  close_approach_date : String
  relative_velocity_kmph : ℚ
  miss_distance_km : ℚ
  orbiting_body : String
deriving DecidableEq, Repr

/-- The body of `fetch_nasa_data`'s inner loop (lines 35-48): index `[0]`
of an empty `close_approach_data` raises (`none`), as does a `float()`
call on an unparseable string; otherwise the flat record is built from
the object and the first close-approach entry. -/
def flattenNeo (o : NeoObj) : Option NeoRecord :=
  match o.close_approach_data with
  | [] => none
  | ca :: _ =>
    match parseNum? ca.relative_velocity_kmph, parseNum? ca.miss_distance_km with
    | some v, some d =>
      some { id := o.id
             name := o.name
             absolute_magnitude_h := o.absolute_magnitude_h
             estimated_diameter_min_km := o.estimated_diameter_min
             estimated_diameter_max_km := o.estimated_diameter_max
             is_potentially_hazardous_asteroid := o.is_potentially_hazardous_asteroid
             close_approach_date := ca.close_approach_date
             relative_velocity_kmph := v
             miss_distance_km := d
             orbiting_body := ca.orbiting_body }
    | _, _ => none

/-- The accumulation loop of `fetch_nasa_data`: one record per object; an
unhandled exception anywhere aborts with no partial list (`none`). -/
def collectNeos : List NeoObj → Option (List NeoRecord)
  | [] => some []
  | o :: rest =>
    match flattenNeo o with
    | none => none
    | some r =>
      match collectNeos rest with
      | none => none
      | some rs => some (r :: rs)

/-- The feed response's `near_earth_objects` collection: date keys mapped
to arrays of objects. -/
def FeedResponse : Type := List (String × List NeoObj)

/-- All objects of the feed, in iteration order over dates then objects. -/
def allObjs (feed : FeedResponse) : List NeoObj :=
  (feed.map Prod.snd).flatten

/-- `fetch_nasa_data` (lines 25-49), from the parsed JSON body onwards:
flatten every object of every date into one record, aborting on an empty
close-approach list or an unparseable numeric string. -/
def fetch_nasa_data (feed : FeedResponse) : Option (List NeoRecord) :=
  collectNeos (allObjs feed)

/-- Rendering of one cell for `to_csv`: missing values become the empty
field, booleans print as `True`/`False`, numbers and strings print their
text. -/
def renderCell : Value → List Char
  | Value.str s => s.toList
  | Value.num q => (toString q).toList
  | Value.bool b => if b then "True".toList else "False".toList
  | Value.na => []

/-- Join character lists with a separator character. -/
def intercalateC (c : Char) : List (List Char) → List Char
  | [] => []
  | [p] => p
  | p :: q :: ps => p ++ c :: intercalateC c (q :: ps)

/-- Split a character list at every occurrence of a separator character. -/
def splitOnC (c : Char) : List Char → List (List Char)
  | [] => [[]]
  | x :: xs =>
    if x = c then [] :: splitOnC c xs
    else
      match splitOnC c xs with
      | [] => [[x]]
      | p :: ps => (x :: p) :: ps

/-- `combined_df.to_csv(index=False)` (line 124): a header line of the
column names, one comma-separated line per row, every line terminated by
a newline, no index column.  Cells free of separator characters are
written unquoted, exactly as pandas writes them. -/
def to_csv (t : Table) : List Char :=
  intercalateC '\n'
    ((intercalateC ',' (t.cols.map String.toList)
        :: t.rows.map (fun r => intercalateC ',' (r.map renderCell))) ++ [[]])

/-- Modelled from the spec: the reader of "CSV export round-trips:
parsing the exported CSV" — a plain comma-separated reader that takes
the first line as the header and each further line as one record,
ignoring the final newline.  (The reader is not part of `src/`.) -/
def parseCsv (s : List Char) : List (List (List Char)) :=
  let ls := splitOnC '\n' s
  let ls := if ls.getLast? = some [] then ls.dropLast else ls
  ls.map (fun line => splitOnC ',' line)

/-- The fixed bin count the histogram is built with (`nbins=40`, line 99). -/
def histNBins : Nat := 40

/-- The numeric values the histogram consumes: the
`estimated_diameter_max_km` cells of the filtered table, missing and
non-numeric cells dropped as the charting library drops NaN. -/
def fig3Input (t : Table) : List ℚ :=
  t.rows.filterMap (fun r =>
    match t.getCell r "estimated_diameter_max_km" with
    | Value.num q => some q
    | _ => none)

/-- Modelled from the spec: the histogram binning — "distribution of max
diameter across 40 fixed-width bins"; zero input values yield an empty
(all-zero) histogram, not a fault.  (The binning runs inside the
charting library, not in `src/`.) -/
def histogramCounts (xs : List ℚ) : List Nat :=
  match xs with
  | [] => List.replicate histNBins 0
  | x :: rest =>
    let lo := rest.foldl min x
    let hi := rest.foldl max x
    let w := (hi - lo) / (histNBins : ℚ)
    (List.range histNBins).map (fun i =>
      (xs.filter (fun y =>
        if i + 1 = histNBins then
          decide (lo + i * w ≤ y) && decide (y ≤ hi)
        else
          decide (lo + i * w ≤ y) && decide (y < lo + (i + 1) * w))).length)

/-- Whether a cell is numeric. -/
def Value.isNum : Value → Bool
  | Value.num _ => true
  | _ => false

/-- A small static-style table: two boolean hazard rows and one with a
missing hazard flag. -/
def sampleA : Table :=
  { cols := ["id", hazCol]
    rows := [[Value.str "a", Value.bool true],
             [Value.str "b", Value.bool false],
             [Value.str "c", Value.na]] }

/-- A small live-style table with a column `sampleA` lacks. -/
def sampleB : Table :=
  { cols := ["id", "x"]
    rows := [[Value.str "d", Value.num 3]] }

/-- A one-row static file whose numeric cell is malformed text. -/
def sampleRaw : Table :=
  { cols := ["relative_velocity_kmph"]
    rows := [[Value.str "N/A"]] }

/-- A one-object feed response with a well-formed close-approach entry. -/
def sampleFeed : FeedResponse :=
  [("2026-10-12",
    [{ id := "1", name := "n", absolute_magnitude_h := 5,
       estimated_diameter_min := 1, estimated_diameter_max := 2,
       is_potentially_hazardous_asteroid := true,
       close_approach_data :=
         [{ close_approach_date := "2026-10-12",
            relative_velocity_kmph := "100.5",
            miss_distance_km := "2000",
            orbiting_body := "Earth" }] }])]

/-- A one-object feed response whose close-approach list is empty. -/
def sampleFeedEmptyCA : FeedResponse :=
  [("2026-10-12",
    [{ id := "1", name := "n", absolute_magnitude_h := 5,
       estimated_diameter_min := 1, estimated_diameter_max := 2,
       is_potentially_hazardous_asteroid := true,
       close_approach_data := [] }])]

/-- The spec's description of one flattened record (§4.2): fields from
the object itself, approach fields from the first close-approach entry,
velocity and miss distance converted to numbers. -/
def specFlattenRecord (o : NeoObj) : NeoRecord :=
  let ca := o.close_approach_data.headD default
  { id := o.id
    name := o.name
    absolute_magnitude_h := o.absolute_magnitude_h
    estimated_diameter_min_km := o.estimated_diameter_min
    estimated_diameter_max_km := o.estimated_diameter_max
    is_potentially_hazardous_asteroid := o.is_potentially_hazardous_asteroid
    close_approach_date := ca.close_approach_date
    relative_velocity_kmph := (parseNum? ca.relative_velocity_kmph).getD 0
    miss_distance_km := (parseNum? ca.miss_distance_km).getD 0
    orbiting_body := ca.orbiting_body }

lemma hazard_filter_yes_rows (t : Table) :
    (hazard_filter "Yes" t).rows
      = t.rows.filter (fun r => pyEq (t.getCell r hazCol) (Value.bool true)) := rfl

lemma hazard_filter_no_rows (t : Table) :
    (hazard_filter "No" t).rows
      = t.rows.filter (fun r => pyEq (t.getCell r hazCol) (Value.bool false)) := rfl

lemma hazard_filter_all_eq (t : Table) : hazard_filter "All" t = t := rfl

lemma hazard_filter_cols (sel : String) (t : Table) :
    (hazard_filter sel t).cols = t.cols := by
  unfold hazard_filter
  split_ifs <;> rfl

lemma pyEq_bool_true_iff (v : Value) (hv : v.isNum = false) :
    pyEq v (Value.bool true) = true ↔ v = Value.bool true := by
  cases v <;> simp_all [pyEq, Value.isNum]

lemma pyEq_bool_false_iff (v : Value) (hv : v.isNum = false) :
    pyEq v (Value.bool false) = true ↔ v = Value.bool false := by
  cases v <;> simp_all [pyEq, Value.isNum]

/-- C1: the hazard filter is a tri-state selection: "All" performs no
filtering, "Yes" keeps exactly the rows whose hazard flag is `true`,
"No" keeps exactly the rows whose flag is `false`, and no other rows
appear in the result (stated for tables whose hazard column holds no
numeric cells, as the boolean data model prescribes). -/
theorem hazard_filter_tristate (t : Table)
    (hwf : ∀ r ∈ t.rows, (t.getCell r hazCol).isNum = false) :
    hazard_filter "All" t = t
    ∧ (∀ r, r ∈ (hazard_filter "Yes" t).rows
        ↔ r ∈ t.rows ∧ t.getCell r hazCol = Value.bool true)
    ∧ (∀ r, r ∈ (hazard_filter "No" t).rows
        ↔ r ∈ t.rows ∧ t.getCell r hazCol = Value.bool false) := by
  refine ⟨hazard_filter_all_eq t, ?_, ?_⟩
  · intro r
    rw [hazard_filter_yes_rows, List.mem_filter]
    exact and_congr_right fun hr => pyEq_bool_true_iff _ (hwf r hr)
  · intro r
    rw [hazard_filter_no_rows, List.mem_filter]
    exact and_congr_right fun hr => pyEq_bool_false_iff _ (hwf r hr)

/-- Witness for C1 on a concrete three-row table. -/
theorem hazard_filter_tristate_witness :
    hazard_filter "All" sampleA = sampleA
    ∧ (∀ r, r ∈ (hazard_filter "Yes" sampleA).rows
        ↔ r ∈ sampleA.rows ∧ sampleA.getCell r hazCol = Value.bool true)
    ∧ (∀ r, r ∈ (hazard_filter "No" sampleA).rows
        ↔ r ∈ sampleA.rows ∧ sampleA.getCell r hazCol = Value.bool false) :=
  hazard_filter_tristate sampleA (by decide)

/-- C4: the hazard filter is idempotent for "Yes" and "No", and "All" is
the identity. -/
theorem hazard_filter_idempotent (t : Table) :
    hazard_filter "Yes" (hazard_filter "Yes" t) = hazard_filter "Yes" t
    ∧ hazard_filter "No" (hazard_filter "No" t) = hazard_filter "No" t
    ∧ hazard_filter "All" t = t := by
  refine ⟨?_, ?_, hazard_filter_all_eq t⟩
  · have h := hazard_filter_yes_rows
    refine Table.ext rfl ?_
    rw [h, h]
    simp [Table.getCell, List.filter_filter, Bool.and_self, hazard_filter_cols]
  · have h := hazard_filter_no_rows
    refine Table.ext rfl ?_
    rw [h, h]
    simp [Table.getCell, List.filter_filter, Bool.and_self, hazard_filter_cols]

/-- C5: filtering never adds rows and never alters retained rows (the
filtered rows are a sublist of the combined rows, so every filtered row
is a combined row with unchanged cells), and the column list is
untouched; as a pure function of the combined table it cannot mutate the
source tables. -/
theorem hazard_filter_frame (sel : String) (t : Table) :
    List.Sublist (hazard_filter sel t).rows t.rows
    ∧ (hazard_filter sel t).cols = t.cols := by
  unfold hazard_filter
  by_cases h1 : sel = "Yes"
  · simp [h1, List.filter_sublist]
  · by_cases h2 : sel = "No"
    · simp [h1, h2, List.filter_sublist]
    · simp [h1, h2, List.Sublist.refl]

/-- C10 (implicit): a row whose hazard cell is missing is dropped by both
the "Yes" and the "No" selections — `NaN == True` and `NaN == False` are
both false — and survives only under "All". -/
theorem missing_hazard_dropped (t : Table) (r : List Value) (hr : r ∈ t.rows)
    (hna : t.getCell r hazCol = Value.na) :
    r ∉ (hazard_filter "Yes" t).rows
    ∧ r ∉ (hazard_filter "No" t).rows
    ∧ r ∈ (hazard_filter "All" t).rows := by
  refine ⟨?_, ?_, by rw [hazard_filter_all_eq]; exact hr⟩
  · intro hmem
    rw [hazard_filter_yes_rows] at hmem
    have := (List.mem_filter.mp hmem).2
    rw [hna] at this
    simp [pyEq] at this
  · intro hmem
    rw [hazard_filter_no_rows] at hmem
    have := (List.mem_filter.mp hmem).2
    rw [hna] at this
    simp [pyEq] at this

/-- Witness for C10 on the concrete row with a missing hazard flag. -/
theorem missing_hazard_dropped_witness :
    [Value.str "c", Value.na] ∉ (hazard_filter "Yes" sampleA).rows
    ∧ [Value.str "c", Value.na] ∉ (hazard_filter "No" sampleA).rows
    ∧ [Value.str "c", Value.na] ∈ (hazard_filter "All" sampleA).rows :=
  missing_hazard_dropped sampleA [Value.str "c", Value.na] (by decide) (by decide)

lemma valueAt_not_mem (cols : List String) (row : List Value) (c : String)
    (h : c ∉ cols) : valueAt cols row c = Value.na := by
  have hfi : cols.findIdx? (fun x => x == c) = none := by
    rw [List.findIdx?_eq_none_iff]
    intro x hx
    exact beq_eq_false_iff_ne.mpr fun e => h (e ▸ hx)
  simp [valueAt, hfi]

lemma valueAt_map_self (cols : List String) (f : String → Value) (c : String)
    (h : c ∈ cols) : valueAt cols (cols.map f) c = f c := by
  induction cols with
  | nil => simp at h
  | cons x xs ih =>
    by_cases hx : x = c
    · subst hx
      simp [valueAt, List.findIdx?_cons]
    · have hpx : (x == c) = false := beq_eq_false_iff_ne.mpr hx
      have hc : c ∈ xs := by
        rcases List.mem_cons.mp h with h | h
        · exact absurd h.symm hx
        · exact h
      have hxs := ih hc
      rw [valueAt] at hxs ⊢
      rw [List.map_cons, List.findIdx?_cons, hpx]
      simp only [Bool.false_eq_true, if_false, List.findIdx?_succ]
      cases hfi : List.findIdx? (fun x => x == c) xs with
      | none => rw [hfi] at hxs; simpa using hxs
      | some i =>
        rw [hfi] at hxs
        simpa [List.getD_cons_succ] using hxs

lemma valueAt_reindex (srcCols cols : List String) (row : List Value) (c : String)
    (h : c ∈ cols) :
    valueAt cols (reindexRow srcCols row cols) c = valueAt srcCols row c :=
  valueAt_map_self cols _ c h

/-- C2: concatenating the two source tables preserves every row from
both — the combined row count is the sum of the two input counts — the
combined column list is the outer union of the two sources' columns, and
every source row appears in the combined table with its own cells
unchanged, holding a missing value at every column its source lacks. -/
theorem concat_preserves_rows_and_columns (a b : Table) :
    (concatTables a b).rows.length = a.rows.length + b.rows.length
    ∧ (∀ c, c ∈ (concatTables a b).cols ↔ c ∈ a.cols ∨ c ∈ b.cols)
    ∧ (∀ r ∈ a.rows,
        reindexRow a.cols r (concatTables a b).cols ∈ (concatTables a b).rows
        ∧ ∀ c ∈ (concatTables a b).cols,
            valueAt (concatTables a b).cols (reindexRow a.cols r (concatTables a b).cols) c
              = valueAt a.cols r c
            ∧ (c ∉ a.cols →
                valueAt (concatTables a b).cols (reindexRow a.cols r (concatTables a b).cols) c
                  = Value.na))
    ∧ (∀ r ∈ b.rows,
        reindexRow b.cols r (concatTables a b).cols ∈ (concatTables a b).rows
        ∧ ∀ c ∈ (concatTables a b).cols,
            valueAt (concatTables a b).cols (reindexRow b.cols r (concatTables a b).cols) c
              = valueAt b.cols r c
            ∧ (c ∉ b.cols →
                valueAt (concatTables a b).cols (reindexRow b.cols r (concatTables a b).cols) c
                  = Value.na)) := by
  refine ⟨by simp [concatTables], ?_, ?_, ?_⟩
  · intro c
    have hcontains : ∀ d : String, ∀ l : List String,
        (!(l.contains d)) = true ↔ d ∉ l := by
      intro d l
      rw [Bool.not_eq_true', ← Bool.not_eq_true]
      exact not_congr List.elem_iff
    simp only [concatTables, List.mem_append, List.mem_filter, hcontains]
    tauto
  · intro r hr
    refine ⟨List.mem_append_left _ (List.mem_map_of_mem _ hr), ?_⟩
    intro c hc
    rw [valueAt_reindex _ _ _ _ hc]
    exact ⟨rfl, fun hna => valueAt_not_mem _ _ _ hna⟩
  · intro r hr
    refine ⟨List.mem_append_right _ (List.mem_map_of_mem _ hr), ?_⟩
    intro c hc
    rw [valueAt_reindex _ _ _ _ hc]
    exact ⟨rfl, fun hna => valueAt_not_mem _ _ _ hna⟩

/-- Witness for C2 on two concrete tables with partially disjoint
columns. -/
theorem concat_preserves_rows_and_columns_witness :
    (concatTables sampleA sampleB).rows.length
      = sampleA.rows.length + sampleB.rows.length
    ∧ ("x" ∈ (concatTables sampleA sampleB).cols
        ↔ "x" ∈ sampleA.cols ∨ "x" ∈ sampleB.cols) :=
  ⟨(concat_preserves_rows_and_columns sampleA sampleB).1,
   (concat_preserves_rows_and_columns sampleA sampleB).2.1 "x"⟩

lemma valueAt_setCell_same (cols : List String) (row : List Value) (c : String) :
    valueAt cols (setCell cols row c toNumericCoerce) c
      = toNumericCoerce (valueAt cols row c) := by
  rw [valueAt, valueAt, setCell]
  cases hfi : List.findIdx? (fun x => x == c) cols with
  | none => rfl
  | some i =>
    change (row.set i (toNumericCoerce (row.getD i Value.na))).getD i Value.na
      = toNumericCoerce (row.getD i Value.na)
    by_cases hi : i < row.length
    · simp [List.getD_eq_getElem?_getD, List.getElem?_set_self hi]
    · have hle : row.length ≤ i := Nat.le_of_not_lt hi
      have h1 : row.getD i Value.na = Value.na := by
        rw [List.getD_eq_getElem?_getD, List.getElem?_eq_none hle]
        rfl
      have h2 : ∀ v : Value, (row.set i v)[i]? = none := fun v =>
        List.getElem?_eq_none (by rw [List.length_set]; exact hle)
      rw [h1, List.getD_eq_getElem?_getD, h2]
      rfl

lemma valueAt_setCell_ne (cols : List String) (row : List Value) (c c' : String)
    (f : Value → Value) (hne : c ≠ c') :
    valueAt cols (setCell cols row c' f) c = valueAt cols row c := by
  rw [valueAt, valueAt, setCell]
  cases hj : List.findIdx? (fun x => x == c') cols with
  | none => rfl
  | some j =>
    cases hi : List.findIdx? (fun x => x == c) cols with
    | none => rfl
    | some i =>
      have hij : j ≠ i := by
        intro e
        subst e
        obtain ⟨hlt, hfi⟩ := List.findIdx?_eq_some_iff_findIdx_eq.mp hi
        obtain ⟨hlt', hfj⟩ := List.findIdx?_eq_some_iff_findIdx_eq.mp hj
        have h1 : (cols[j] == c) = true := by
          have hw := @List.findIdx_getElem _ (fun x => x == c) cols
            (by rw [hfi]; exact hlt)
          simpa [hfi] using hw
        have h2 : (cols[j] == c') = true := by
          have hw := @List.findIdx_getElem _ (fun x => x == c') cols
            (by rw [hfj]; exact hlt')
          simpa [hfj] using hw
        exact hne (by rw [← eq_of_beq h1, ← eq_of_beq h2])
      simp [List.getD_eq_getElem?_getD, List.getElem?_set_ne hij]

lemma load_rows (raw : Table) :
    (load_static_data raw).rows = raw.rows.map (fun r =>
      setCell raw.cols (setCell raw.cols (setCell raw.cols (setCell raw.cols r
        "relative_velocity_kmph" toNumericCoerce) "miss_distance_km" toNumericCoerce)
        "estimated_diameter_min_km" toNumericCoerce)
        "estimated_diameter_max_km" toNumericCoerce) := by
  simp [load_static_data, toNumericCol, List.map_map, Function.comp]

lemma valueAt_load_cell (cols : List String) (r : List Value) (c : String)
    (hc : c ∈ numericCols) :
    valueAt cols (setCell cols (setCell cols (setCell cols (setCell cols r
        "relative_velocity_kmph" toNumericCoerce) "miss_distance_km" toNumericCoerce)
        "estimated_diameter_min_km" toNumericCoerce)
        "estimated_diameter_max_km" toNumericCoerce) c
      = toNumericCoerce (valueAt cols r c) := by
  simp only [numericCols, List.mem_cons, List.not_mem_nil, or_false] at hc
  rcases hc with rfl | rfl | rfl | rfl
  · rw [valueAt_setCell_ne _ _ _ _ _ (by decide), valueAt_setCell_ne _ _ _ _ _ (by decide),
      valueAt_setCell_ne _ _ _ _ _ (by decide), valueAt_setCell_same]
  · rw [valueAt_setCell_ne _ _ _ _ _ (by decide), valueAt_setCell_ne _ _ _ _ _ (by decide),
      valueAt_setCell_same, valueAt_setCell_ne _ _ _ _ _ (by decide)]
  · rw [valueAt_setCell_ne _ _ _ _ _ (by decide), valueAt_setCell_same,
      valueAt_setCell_ne _ _ _ _ _ (by decide), valueAt_setCell_ne _ _ _ _ _ (by decide)]
  · rw [valueAt_setCell_same, valueAt_setCell_ne _ _ _ _ _ (by decide),
      valueAt_setCell_ne _ _ _ _ _ (by decide), valueAt_setCell_ne _ _ _ _ _ (by decide)]

/-- C3: a cell of one of the four numeric columns whose text fails
numeric parsing is loaded as a missing value, no error is raised, and
every row is retained — the loaded table has exactly as many rows as the
input. -/
theorem static_loader_malformed_cell_missing (raw : Table) (c : String)
    (hc : c ∈ numericCols) (i : Nat) (h : i < raw.rows.length)
    (h2 : i < (load_static_data raw).rows.length) (s : String)
    (hs : valueAt raw.cols (raw.rows.get ⟨i, h⟩) c = Value.str s)
    (hp : parseNum? s = none) :
    (load_static_data raw).rows.length = raw.rows.length
    ∧ valueAt raw.cols ((load_static_data raw).rows.get ⟨i, h2⟩) c = Value.na := by
  have hlen : (load_static_data raw).rows.length = raw.rows.length := by
    rw [load_rows, List.length_map]
  refine ⟨hlen, ?_⟩
  have hget : (load_static_data raw).rows.get ⟨i, h2⟩
      = setCell raw.cols (setCell raw.cols (setCell raw.cols (setCell raw.cols
          (raw.rows.get ⟨i, h⟩)
          "relative_velocity_kmph" toNumericCoerce) "miss_distance_km" toNumericCoerce)
          "estimated_diameter_min_km" toNumericCoerce)
          "estimated_diameter_max_km" toNumericCoerce := by
    have := load_rows raw
    rw [List.get_eq_getElem, List.get_eq_getElem]
    simp only [this, List.getElem_map]
  rw [hget, valueAt_load_cell _ _ _ hc, hs, toNumericCoerce, hp]

/-- Witness for C3: the malformed cell `"N/A"` loads as a missing value
and the single row is retained. -/
theorem static_loader_malformed_cell_missing_witness :
    (load_static_data sampleRaw).rows.length = sampleRaw.rows.length
    ∧ valueAt sampleRaw.cols
        ((load_static_data sampleRaw).rows.get ⟨0, by decide⟩)
        "relative_velocity_kmph" = Value.na :=
  static_loader_malformed_cell_missing sampleRaw "relative_velocity_kmph"
    (by decide) 0 (by decide) (by decide) "N/A" (by decide) (by decide)

lemma collectNeos_eq_map (l : List NeoObj)
    (h : ∀ o ∈ l, o.close_approach_data ≠ []
      ∧ (parseNum? (o.close_approach_data.headD default).relative_velocity_kmph).isSome
      ∧ (parseNum? (o.close_approach_data.headD default).miss_distance_km).isSome) :
    collectNeos l = some (l.map specFlattenRecord) := by
  induction l with
  | nil => rfl
  | cons o rest ih =>
    obtain ⟨hne, hv, hd⟩ := h o (List.mem_cons_self o rest)
    obtain ⟨ca, tl, hca⟩ : ∃ ca tl, o.close_approach_data = ca :: tl := by
      cases hcd : o.close_approach_data with
      | nil => exact absurd hcd hne
      | cons ca tl => exact ⟨ca, tl, rfl⟩
    rw [hca] at hv hd
    simp only [List.headD_cons] at hv hd
    obtain ⟨v, hv'⟩ := Option.isSome_iff_exists.mp hv
    obtain ⟨d, hd'⟩ := Option.isSome_iff_exists.mp hd
    have hrest := ih fun o' ho' => h o' (List.mem_cons_of_mem o ho')
    simp only [collectNeos, flattenNeo, hca, hv', hd', hrest, List.map_cons]
    simp [specFlattenRecord, hca, hv', hd']

/-- C6: for a feed response whose objects all have a non-empty
close-approach list with parseable velocity and miss-distance strings,
the Live Fetcher produces exactly one flat record per object, whose
fields come from the object itself and, for the approach date, velocity,
miss distance and orbiting body, from the first close-approach entry
only — i.e. it computes exactly the spec's per-object flattening. -/
theorem fetch_flattens_one_record_per_object (feed : FeedResponse)
    (h : ∀ o ∈ allObjs feed, o.close_approach_data ≠ []
      ∧ (parseNum? (o.close_approach_data.headD default).relative_velocity_kmph).isSome
      ∧ (parseNum? (o.close_approach_data.headD default).miss_distance_km).isSome) :
    fetch_nasa_data feed = some ((allObjs feed).map specFlattenRecord) :=
  collectNeos_eq_map (allObjs feed) h

/-- Witness for C6 on a concrete one-object feed. -/
theorem fetch_flattens_one_record_per_object_witness :
    fetch_nasa_data sampleFeed = some ((allObjs sampleFeed).map specFlattenRecord) :=
  fetch_flattens_one_record_per_object sampleFeed (by decide)

lemma collectNeos_none_of_mem (l : List NeoObj) (o : NeoObj) (ho : o ∈ l)
    (hf : flattenNeo o = none) : collectNeos l = none := by
  induction l with
  | nil => cases ho
  | cons a rest ih =>
    rcases List.mem_cons.mp ho with h | h
    · subst h
      simp [collectNeos, hf]
    · cases hfa : flattenNeo a with
      | none => simp [collectNeos, hfa]
      | some r => simp [collectNeos, hfa, ih h]

/-- C7: an object with an empty close-approach list makes the Live
Fetcher abort with an unhandled out-of-range fault — no partial table is
produced and no recovery is attempted (`none`, never `some` of a partial
record list). -/
theorem fetch_aborts_on_empty_close_approach (feed : FeedResponse) (o : NeoObj)
    (ho : o ∈ allObjs feed) (he : o.close_approach_data = []) :
    fetch_nasa_data feed = none :=
  collectNeos_none_of_mem (allObjs feed) o ho (by simp [flattenNeo, he])

/-- Witness for C7 on the concrete feed whose object has no
close-approach entries. -/
theorem fetch_aborts_on_empty_close_approach_witness :
    fetch_nasa_data sampleFeedEmptyCA = none :=
  fetch_aborts_on_empty_close_approach sampleFeedEmptyCA
    { id := "1", name := "n", absolute_magnitude_h := 5,
      estimated_diameter_min := 1, estimated_diameter_max := 2,
      is_potentially_hazardous_asteroid := true,
      close_approach_data := [] }
    (by decide) rfl

lemma splitOnC_no_sep (c : Char) (p : List Char) (h : c ∉ p) :
    splitOnC c p = [p] := by
  induction p with
  | nil => rfl
  | cons x xs ih =>
    have hx : ¬(x = c) := fun e => h (e ▸ List.mem_cons_self x xs)
    have hxs : c ∉ xs := fun hm => h (List.mem_cons_of_mem x hm)
    simp [splitOnC, hx, ih hxs]

lemma splitOnC_append (c : Char) (p rest : List Char) (h : c ∉ p) :
    splitOnC c (p ++ c :: rest) = p :: splitOnC c rest := by
  induction p with
  | nil => simp [splitOnC]
  | cons x xs ih =>
    have hx : ¬(x = c) := fun e => h (e ▸ List.mem_cons_self x xs)
    have hxs : c ∉ xs := fun hm => h (List.mem_cons_of_mem x hm)
    simp [splitOnC, hx, ih hxs]

lemma splitOnC_intercalateC (c : Char) (ps : List (List Char)) (hne : ps ≠ [])
    (h : ∀ p ∈ ps, c ∉ p) : splitOnC c (intercalateC c ps) = ps := by
  induction ps with
  | nil => exact absurd rfl hne
  | cons p ps ih =>
    cases ps with
    | nil => exact splitOnC_no_sep c p (h p (List.mem_cons_self p []))
    | cons q ps' =>
      rw [intercalateC, splitOnC_append c p _ (h p (List.mem_cons_self p (q :: ps'))),
        ih (by simp) fun r hr => h r (List.mem_cons_of_mem p hr)]

lemma mem_intercalateC (c : Char) (ps : List (List Char)) (x : Char)
    (hx : x ∈ intercalateC c ps) : x = c ∨ ∃ p ∈ ps, x ∈ p := by
  induction ps with
  | nil => simp [intercalateC] at hx
  | cons p ps ih =>
    cases ps with
    | nil => exact Or.inr ⟨p, List.mem_cons_self p [], hx⟩
    | cons q ps' =>
      rw [intercalateC] at hx
      rcases List.mem_append.mp hx with h | h
      · exact Or.inr ⟨p, List.mem_cons_self p (q :: ps'), h⟩
      · rcases List.mem_cons.mp h with h | h
        · exact Or.inl h
        · rcases ih h with h | ⟨r, hr, hxr⟩
          · exact Or.inl h
          · exact Or.inr ⟨r, List.mem_cons_of_mem p hr, hxr⟩

/-- C8: the CSV export round-trips — parsing the exported text yields
the header row with exactly the combined column names and one record per
filtered row, so the parsed row count and column set match the exported
table exactly (stated for tables whose column names and rendered cells
contain no separator characters, where the export writes fields
unquoted). -/
theorem csv_export_roundtrip (t : Table)
    (hcols : t.cols ≠ [])
    (hwf : ∀ r ∈ t.rows, r.length = t.cols.length)
    (hname : ∀ s ∈ t.cols, ',' ∉ s.toList ∧ '\n' ∉ s.toList)
    (hcell : ∀ r ∈ t.rows, ∀ v ∈ r, ',' ∉ renderCell v ∧ '\n' ∉ renderCell v) :
    parseCsv (to_csv t)
      = (t.cols.map String.toList) :: t.rows.map (fun r => r.map renderCell)
    ∧ (parseCsv (to_csv t)).length = t.rows.length + 1 := by
  have hnocomma : ∀ line ∈ (intercalateC ',' (t.cols.map String.toList)
        :: t.rows.map fun r => intercalateC ',' (r.map renderCell)), '\n' ∉ line := by
    intro line hline hnl
    rcases List.mem_cons.mp hline with h | h
    · subst h
      rcases mem_intercalateC ',' _ '\n' hnl with h | ⟨p, hp, hxp⟩
      · exact absurd h (by decide)
      · obtain ⟨s, hs, rfl⟩ := List.mem_map.mp hp
        exact (hname s hs).2 hxp
    · obtain ⟨r, hr, rfl⟩ := List.mem_map.mp h
      rcases mem_intercalateC ',' _ '\n' hnl with h | ⟨p, hp, hxp⟩
      · exact absurd h (by decide)
      · obtain ⟨v, hv, rfl⟩ := List.mem_map.mp hp
        exact (hcell r hr v hv).2 hxp
  have hsplit : splitOnC '\n' (to_csv t)
      = (intercalateC ',' (t.cols.map String.toList)
          :: t.rows.map fun r => intercalateC ',' (r.map renderCell)) ++ [[]] := by
    rw [to_csv]
    refine splitOnC_intercalateC '\n' _ (by simp) ?_
    intro p hp
    rcases List.mem_append.mp hp with h | h
    · exact hnocomma p h
    · simp only [List.mem_cons, List.not_mem_nil, or_false] at h
      subst h
      exact List.not_mem_nil '\n'
  have hmain : parseCsv (to_csv t)
      = (t.cols.map String.toList) :: t.rows.map (fun r => r.map renderCell) := by
    rw [parseCsv]
    simp only [hsplit, List.getLast?_concat, if_true, ite_true, List.dropLast_concat]
    rw [List.map_cons]
    congr 1
    · refine splitOnC_intercalateC ',' _ (by simp [hcols]) ?_
      intro p hp
      obtain ⟨s, hs, rfl⟩ := List.mem_map.mp hp
      exact (hname s hs).1
    · rw [List.map_map]
      refine List.map_congr_left ?_
      intro r hr
      refine splitOnC_intercalateC ',' _ ?_ ?_
      · have hlen := hwf r hr
        have : r ≠ [] := by
          intro e
          rw [e] at hlen
          exact hcols (List.length_eq_zero.mp hlen.symm)
        simpa using this
      · intro p hp
        obtain ⟨v, hv, rfl⟩ := List.mem_map.mp hp
        exact (hcell r hr v hv).1
  exact ⟨hmain, by rw [hmain]; simp⟩

/-- Witness for C8 on a concrete one-row table. -/
theorem csv_export_roundtrip_witness :
    parseCsv (to_csv sampleB)
      = (sampleB.cols.map String.toList)
          :: sampleB.rows.map (fun r => r.map renderCell)
    ∧ (parseCsv (to_csv sampleB)).length = sampleB.rows.length + 1 :=
  csv_export_roundtrip sampleB (by decide) (by decide) (by decide) (by decide)

/-- C9: the max-diameter histogram always has exactly 40 bins, for every
filtered table regardless of its row count, and a zero-row table yields
an empty (all-zero) histogram rather than a fault. -/
theorem histogram_always_forty_bins (t : Table) :
    (histogramCounts (fig3Input t)).length = 40
    ∧ ∀ cols, histogramCounts (fig3Input (Table.mk cols [])) = List.replicate 40 0 := by
  constructor
  · cases h : fig3Input t with
    | nil => simp [histogramCounts, histNBins]
    | cons x xs => simp [histogramCounts, histNBins]
  · intro cols
    rfl
